import Mathlib

/-
  Verification of the REST transport layer (nodejs/lib/util/http.js):
  host-fallback dispatch, retryability classification, response
  classification, connectivity probe and the shared connection-agent pair.

  The embedding is shallow: each JavaScript function of the source is
  translated into a Lean function over explicit data.  JavaScript values
  that may be `undefined` are modelled with `Option`; code that can throw
  is modelled with `Except`; the mutable per-client fallback record and
  the process-wide agent pair are threaded as explicit state.
-/

namespace AblyHttp

/-- A JavaScript value as produced by body decoding (JSON / msgpack). -/
inductive JsVal where
  | null
  | bool (b : Bool)
  | num (n : Int)
  | str (s : String)
  | arr (elems : List JsVal)
  | obj (fields : List (String × JsVal))
deriving Repr

/-- An error value as seen by the dispatch code: both transport errors
(which carry a `code` such as ETIMEDOUT) and ErrorInfo values (which carry
a `statusCode`) expose the same optional fields read by `shouldFallback`. -/
structure ErrVal where
  message : Option String
  code : Option JsVal
  statusCode : Option Int
deriving Repr

/-- True exactly when the JS expression `c === 'ENETUNREACH' || ...` over the
recognized network error codes is true; a non-string code never matches. -/
def isNetworkErrorCode : JsVal → Bool
  | JsVal.str s =>
      s == "ENETUNREACH" || s == "EHOSTUNREACH" || s == "EHOSTDOWN" ||
      s == "ETIMEDOUT" || s == "ESOCKETTIMEDOUT" || s == "ENOTFOUND" ||
      s == "ECONNRESET" || s == "ECONNREFUSED"
  | _ => false

/-- `shouldFallback(err)` from the source: recognized network error code, or
status code in the inclusive range 500..504.  An absent field (undefined in
JS) makes its disjunct false, as in JS comparison semantics. -/
def shouldFallback (err : ErrVal) : Bool :=
  (match err.code with
   | some c => isNetworkErrorCode c
   | none => false) ||
  (match err.statusCode with
   | some s => decide (500 ≤ s) && decide (s ≤ 504)
   | none => false)

/-- Response headers read by the source: the content type and the two
x-ably error headers. -/
structure Headers where
  contentType : Option String
  xAblyErrorMessage : Option String
  xAblyErrorCode : Option String
deriving Repr

/-- The raw response fields read by `handler`. -/
structure Response where
  statusCode : Nat
  headers : Headers
deriving Repr

/-- A response body as held by the `body` variable of `handler`: either the
raw (buffer/string) payload or a decoded JS value. -/
inductive BodyVal where
  | raw (s : String)
  | decoded (v : JsVal)
deriving Repr

/-- The argument vector a dispatch callback is invoked with: either the
single-argument transport-error form `callback(err)` or the full form
`callback(err, body, headers, isError, statusCode)`. -/
inductive CbArgs where
  | errOnly (e : ErrVal)
  | full (err : Option ErrVal) (body : BodyVal) (headers : Headers)
         (isError : Bool) (statusCode : Nat)
deriving Repr

/-- The first callback argument (`err`), the only one the retry logic reads. -/
def CbArgs.firstArg : CbArgs → Option ErrVal
  | CbArgs.errOnly e => some e
  | CbArgs.full e _ _ _ _ => e

/-- The JS guard `err && shouldFallback(err)` on a callback invocation. -/
def CbArgs.retryable (r : CbArgs) : Bool :=
  match r.firstArg with
  | some e => shouldFallback e
  | none => false

/-- The per-client stored fallback record `rest._currentFallback`. -/
structure FallbackRecord where
  host : String
  validUntil : Nat
deriving Repr

/-- The observable outcome of one dispatch: the hosts attempted in order,
the callback invocation delivered to the caller, and the fallback record
stored at the time the callback fires. -/
structure DispatchResult where
  attempts : List String
  result : CbArgs
  fallback : Option FallbackRecord
deriving Repr

/-- `tryAHost(candidateHosts, persistOnSuccess)` from the source.  The
network is modelled by `net`, giving the callback arguments produced by
`Http.doUri` against each host; `now + ttl` is
`Date.now() + rest.options.timeouts.fallbackRetryTimeout`.  The empty-list
case never arises in the source (the caller guarantees at least two hosts
and recursion is guarded by `candidateHosts.length`). -/
def tryAHost (net : String → CbArgs) (now ttl : Nat) :
    List String → Bool → DispatchResult
  | [], _ => ⟨[], CbArgs.errOnly ⟨none, none, none⟩, none⟩
  | host :: remaining, persistOnSuccess =>
    let res := net host
    if res.retryable && !remaining.isEmpty then
      let d := tryAHost net now ttl remaining true
      ⟨host :: d.attempts, d.result, d.fallback⟩
    else
      ⟨[host], res, if persistOnSuccess then some ⟨host, now + ttl⟩ else none⟩

/-- The part of `Http.do` after the stored-fallback check: the fallback
record is null at this point; a single-host list is attempted directly with
no fallback bookkeeping, otherwise `tryAHost(hosts)` runs. -/
def coldDispatch (net : String → CbArgs) (now ttl : Nat)
    (hosts : List String) : DispatchResult :=
  match hosts with
  | [host] => ⟨[host], net host, none⟩
  | hs => tryAHost net now ttl hs false

/-- `Http.do` with explicit fuel for the self-restart
`Http.do.apply(Http, doArgs)` taken after a stored fallback fails
retryably.  The restart re-enters with `rest._currentFallback = null`,
which is passed here as `none`; `none` as a result means the fuel ran out
before the dispatch finished. -/
def httpDoFuel (net : String → CbArgs) (now ttl : Nat) (hosts : List String) :
    Nat → Option FallbackRecord → Option DispatchResult
  | 0, _ => none
  | _ + 1, none => some (coldDispatch net now ttl hosts)
  | fuel + 1, some record =>
    if now < record.validUntil then
      let res := net record.host
      if res.retryable then
        (httpDoFuel net now ttl hosts fuel none).map
          (fun d => ⟨record.host :: d.attempts, d.result, d.fallback⟩)
      else
        some ⟨[record.host], res, some record⟩
    else
      some (coldDispatch net now ttl hosts)

/-- `Http.do`: fuel 2 covers the at-most-one self-restart of the source. -/
def httpDo (net : String → CbArgs) (now ttl : Nat) (hosts : List String)
    (fallback : Option FallbackRecord) : Option DispatchResult :=
  httpDoFuel net now ttl hosts 2 fallback

/-- An exception escaping the classification step of `handler`: a decode
failure thrown by `JSON.parse` / `msgpack.decode`, or the TypeError thrown
by reading a property of `null`. -/
inductive HandlerExn where
  | parseFailure
  | typeFailure
deriving Repr, DecidableEq

/-- The opening-brace character, written by code point. -/
def lbrace : Char := Char.ofNat 123

/-- The closing-brace character, written by code point. -/
def rbrace : Char := Char.ofNat 125

/-- Drop leading JSON whitespace. -/
def skipWs : List Char → List Char
  | c :: cs =>
      if c = ' ' ∨ c = '\n' ∨ c = '\t' ∨ c = '\r' then skipWs cs else c :: cs
  | [] => []

/-- Consume the given literal characters. -/
def expectLit : List Char → List Char → Option (List Char)
  | [], cs => some cs
  | l :: ls, c :: cs => if c = l then expectLit ls cs else none
  | _ :: _, [] => none

/-- Parse the body of a JSON string after the opening quote. -/
def parseStringBody : List Char → Option (String × List Char)
  | [] => none
  | '"' :: cs => some ("", cs)
  | '\\' :: e :: cs =>
      let esc : Option Char :=
        if e = '"' then some '"'
        else if e = '\\' then some '\\'
        else if e = '/' then some '/'
        else if e = 'n' then some '\n'
        else if e = 't' then some '\t'
        else if e = 'r' then some '\r'
        else if e = 'b' then some (Char.ofNat 8)
        else if e = 'f' then some (Char.ofNat 12)
        else none
      match esc with
      | some ch => (parseStringBody cs).map (fun p => (String.mk (ch :: p.1.data), p.2))
      | none => none
  | c :: cs => (parseStringBody cs).map (fun p => (String.mk (c :: p.1.data), p.2))

/-- Take a maximal run of decimal digits. -/
def takeDigits : List Char → List Char × List Char
  | c :: cs =>
      if c.isDigit then
        let p := takeDigits cs
        (c :: p.1, p.2)
      else ([], c :: cs)
  | [] => ([], [])

/-- Decimal value of a digit run. -/
def digitsToNat (ds : List Char) : Nat :=
  ds.foldl (fun a c => a * 10 + (c.toNat - 48)) 0

mutual

/-- Modelled from the spec: `JSON.parse`, the platform JSON body decoder
(not part of this repository).  Recursive-descent on the character list
with fuel; numeric literals are modelled on the integer fragment. -/
def parseJsonVal : Nat → List Char → Option (JsVal × List Char)
  | 0, _ => none
  | fuel + 1, input =>
    match skipWs input with
    | [] => none
    | c :: rest =>
      if c = lbrace then parseObjFields fuel rest true
      else if c = '[' then parseArrElems fuel rest true
      else if c = '"' then
        (parseStringBody rest).map (fun p => (JsVal.str p.1, p.2))
      else if c = 't' then
        (expectLit ['r', 'u', 'e'] rest).map (fun r => (JsVal.bool true, r))
      else if c = 'f' then
        (expectLit ['a', 'l', 's', 'e'] rest).map (fun r => (JsVal.bool false, r))
      else if c = 'n' then
        (expectLit ['u', 'l', 'l'] rest).map (fun r => (JsVal.null, r))
      else if c = '-' then
        match takeDigits rest with
        | ([], _) => none
        | (ds, r) => some (JsVal.num (-(digitsToNat ds : Int)), r)
      else if c.isDigit then
        match takeDigits (c :: rest) with
        | (ds, r) => some (JsVal.num (digitsToNat ds), r)
      else none

/-- Elements of a JSON array, positioned right after `[` or after a comma;
`first` is true only right after `[`, where `]` may close an empty array. -/
def parseArrElems : Nat → List Char → Bool → Option (JsVal × List Char)
  | 0, _, _ => none
  | fuel + 1, cs, first =>
    match skipWs cs with
    | [] => none
    | c :: rest =>
      if first ∧ c = ']' then some (JsVal.arr [], rest)
      else
        match parseJsonVal fuel (c :: rest) with
        | none => none
        | some (v, after) =>
          match skipWs after with
          | ']' :: r => some (JsVal.arr [v], r)
          | ',' :: r =>
            match parseArrElems fuel r false with
            | some (JsVal.arr vs, r2) => some (JsVal.arr (v :: vs), r2)
            | _ => none
          | _ => none

/-- Members of a JSON object, positioned right after the opening brace or
after a comma; `first` is true only right after the opening brace. -/
def parseObjFields : Nat → List Char → Bool → Option (JsVal × List Char)
  | 0, _, _ => none
  | fuel + 1, cs, first =>
    match skipWs cs with
    | [] => none
    | c :: rest =>
      if first ∧ c = rbrace then some (JsVal.obj [], rest)
      else if c = '"' then
        match parseStringBody rest with
        | none => none
        | some (key, afterKey) =>
          match skipWs afterKey with
          | ':' :: afterColon =>
            match parseJsonVal fuel afterColon with
            | none => none
            | some (v, after) =>
              match skipWs after with
              | ',' :: r =>
                match parseObjFields fuel r false with
                | some (JsVal.obj fs, r2) => some (JsVal.obj ((key, v) :: fs), r2)
                | _ => none
              | d :: r =>
                if d = rbrace then some (JsVal.obj [(key, v)], r) else none
              | [] => none
          | _ => none
      else none

end

/-- Modelled from the spec: `JSON.parse` on a whole body string; a body
that does not parse throws (here: `Except.error`). -/
def jsonParse (s : String) : Except HandlerExn JsVal :=
  match parseJsonVal (2 * s.length + 2) s.data with
  | some (v, rest) =>
      if skipWs rest = [] then Except.ok v else Except.error HandlerExn.parseFailure
  | none => Except.error HandlerExn.parseFailure

/-- Look up a field of a JS object. -/
def lookupField : List (String × JsVal) → String → Option JsVal
  | [], _ => none
  | (k, v) :: fs, key => if k = key then some v else lookupField fs key

/-- JS property read `b.error`-style on the body variable: reading a
property of `null` throws a TypeError; primitives and the raw buffer give
`undefined` (`none`); objects give the field when present. -/
def jsProp (b : BodyVal) (key : String) : Except HandlerExn (Option JsVal) :=
  match b with
  | BodyVal.raw _ => Except.ok none
  | BodyVal.decoded v =>
    match v with
    | JsVal.null => Except.error HandlerExn.typeFailure
    | JsVal.obj fields => Except.ok (lookupField fields key)
    | _ => Except.ok none

/-- JS truthiness of a value. -/
def jsTruthy : JsVal → Bool
  | JsVal.null => false
  | JsVal.bool b => b
  | JsVal.num n => decide (n ≠ 0)
  | JsVal.str s => !s.isEmpty
  | JsVal.arr _ => true
  | JsVal.obj _ => true

/-- Field of a JS value when it is an object, `undefined` otherwise. -/
def propOf (v : JsVal) (key : String) : Option JsVal :=
  match v with
  | JsVal.obj fields => lookupField fields key
  | _ => none

/-- Modelled from the spec: `ErrorInfo.fromValues` (the ErrorInfo module is
not under src/) copies the message, code and statusCode fields of the
structured error payload into a uniform ErrorInfo shape. -/
def errorInfoFromValues (v : JsVal) : ErrVal :=
  ⟨(match propOf v "message" with
    | some (JsVal.str s) => some s
    | _ => none),
   propOf v "code",
   (match propOf v "statusCode" with
    | some (JsVal.num n) => some n
    | _ => none)⟩

/-- Modelled from the spec: `Utils.inspect` (the utils module is not under
src/), a safe textual rendering of the body. -/
def inspectBody : BodyVal → String
  | BodyVal.raw s => s
  | BodyVal.decoded JsVal.null => "null"
  | BodyVal.decoded (JsVal.bool true) => "true"
  | BodyVal.decoded (JsVal.bool false) => "false"
  | BodyVal.decoded (JsVal.num n) => toString n
  | BodyVal.decoded (JsVal.str s) => s
  | BodyVal.decoded (JsVal.arr _) => "[array]"
  | BodyVal.decoded (JsVal.obj _) => "[object]"

/-- The ErrorInfo synthesized by `handler` when the body carries no truthy
structured error: message from the x-ably-errormessage header when truthy
(JS `||` treats the empty string as falsy), else a generated message; code
from the x-ably-errorcode header; statusCode from the response. -/
def synthesizedError (headers : Headers) (statusCode : Nat) (body : BodyVal) :
    ErrVal :=
  let generated :=
    "Error response received from server: " ++ toString statusCode ++
      " body was: " ++ inspectBody body
  ⟨(match headers.xAblyErrorMessage with
    | some m => if m = "" then some generated else some m
    | none => some generated),
   headers.xAblyErrorCode.map JsVal.str,
   some (statusCode : Int)⟩

/-- The content-type switch of `handler`: exact match on the two recognized
content types decodes the body; any other type leaves it raw. -/
def decodeBody (msgDecode : String → Except HandlerExn JsVal)
    (contentType : Option String) (body : String) :
    Except HandlerExn BodyVal :=
  match contentType with
  | some ct =>
    if ct = "application/json" then (jsonParse body).map BodyVal.decoded
    else if ct = "application/x-msgpack" then (msgDecode body).map BodyVal.decoded
    else Except.ok (BodyVal.raw body)
  | none => Except.ok (BodyVal.raw body)

/-- `handler(uri, params, callback)` from the source, as the function of
the callback arguments `(err, response, body)` it closes over.  `msgDecode`
is `Platform.msgpack.decode` (not part of this repository).  The result is
the callback invocation, or the exception escaping the classification. -/
def handler (msgDecode : String → Except HandlerExn JsVal)
    (err : Option ErrVal) (response : Response) (body : String) :
    Except HandlerExn CbArgs :=
  match err with
  | some e => Except.ok (CbArgs.errOnly e)
  | none =>
    let statusCode := response.statusCode
    let headers := response.headers
    if 300 ≤ statusCode then
      match decodeBody msgDecode headers.contentType body with
      | Except.error ex => Except.error ex
      | Except.ok decoded =>
        match jsProp decoded "error" with
        | Except.error ex => Except.error ex
        | Except.ok errField =>
          let error :=
            match errField with
            | some ev =>
                if jsTruthy ev then errorInfoFromValues ev
                else synthesizedError headers statusCode decoded
            | none => synthesizedError headers statusCode decoded
          Except.ok (CbArgs.full (some error) decoded headers true statusCode)
    else
      Except.ok (CbArgs.full none (BodyVal.raw body) headers false statusCode)

/-- `responseText.toString()` on the value delivered to the connectivity
callback: the raw buffer decodes to its text; a decoded object renders as
JS `Object.prototype.toString` would (never reached on the success path). -/
def bodyToString : BodyVal → String
  | BodyVal.raw s => s
  | BodyVal.decoded _ => "[object Object]"

/-- A JS whitespace character (the kinds relevant here). -/
def isJsSpace (c : Char) : Bool :=
  c = ' ' || c = '\n' || c = '\t' || c = '\r'

/-- Modelled from the spec: `String.prototype.trim`, the platform function
removing surrounding whitespace. -/
def jsTrim (s : String) : String :=
  String.mk (((s.data.dropWhile isJsSpace).reverse.dropWhile isJsSpace).reverse)

/-- `Http.checkConnectivity` from the source, as a function of the callback
arguments delivered by `Http.getUri` for the internet-up URL: it always
reports `(null, ok)` where `ok` is `!err && responseText.toString().trim()
=== 'yes'`. -/
def checkConnectivity (res : CbArgs) : Option ErrVal × Bool :=
  match res with
  | CbArgs.errOnly _ => (none, false)
  | CbArgs.full (some _) _ _ _ _ => (none, false)
  | CbArgs.full none body _ _ _ => (none, jsTrim (bodyToString body) == "yes")

/-- The shared agent pair `Http.agent`: each agent is represented by the
agent options it was constructed from. -/
structure AgentPair (α : Type) where
  httpAgentOptions : α
  httpsAgentOptions : α
deriving Repr, DecidableEq

/-- `{ http: new http.Agent(agentOptions), https: new https.Agent(agentOptions) }`. -/
def mkAgentPair {α : Type} (agentOptions : α) : AgentPair α :=
  ⟨agentOptions, agentOptions⟩

/-- `(rest && rest.options.restAgentOptions) || Defaults.restAgentOptions`. -/
def resolveAgentOptions {α : Type} (defaults : α) (restAgentOptions : Option α) :
    α :=
  match restAgentOptions with
  | some o => o
  | none => defaults

/-- The `if (!Http.agent) { Http.agent = ... }` step of `Http.doUri`:
returns the agent pair used by this request and the agent state after it. -/
def ensureAgent {α : Type} (state : Option (AgentPair α)) (agentOptions : α) :
    AgentPair α × Option (AgentPair α) :=
  match state with
  | some a => (a, some a)
  | none =>
    let a := mkAgentPair agentOptions
    (a, some a)

/-- A sequence of `Http.doUri` executions, each with its own (optional)
per-client agent options, threading the process-wide `Http.agent` state:
returns the agent pair each request used and the final state. -/
def runAgentSteps {α : Type} (defaults : α) :
    List (Option α) → Option (AgentPair α) →
    List (AgentPair α) × Option (AgentPair α)
  | [], st => ([], st)
  | opts :: rest, st =>
    let step := ensureAgent st (resolveAgentOptions defaults opts)
    let tail := runAgentSteps defaults rest step.2
    (step.1 :: tail.1, tail.2)

/-- Modelled from the spec: a `Platform.msgpack.decode` instance (the
msgpack codec is not part of this repository).  The theorems that use it
concretely never reach the msgpack branch of the content-type switch, so
the trivial always-failing decoder is adequate there; universally
quantified theorems range over every decoder. -/
def msgpackUndecodable : String → Except HandlerExn JsVal :=
  fun _ => Except.error HandlerExn.parseFailure

/-- The codes recognized by the network-error disjunction of
`shouldFallback`, as the spec enumerates them. -/
def recognizedNetworkCodes : List String :=
  ["ENETUNREACH", "EHOSTUNREACH", "EHOSTDOWN", "ETIMEDOUT",
   "ESOCKETTIMEDOUT", "ENOTFOUND", "ECONNRESET", "ECONNREFUSED"]

lemma isNetworkErrorCode_iff (v : JsVal) :
    isNetworkErrorCode v = true ↔
      ∃ s, v = JsVal.str s ∧ s ∈ recognizedNetworkCodes := by
  cases v <;>
    simp [isNetworkErrorCode, recognizedNetworkCodes, or_assoc]

/-- C2.  The retryability classifier returns true exactly on the
recognized network error codes or a status code in [500, 504]; in
particular 404 and 401 are not retryable. -/
theorem claim2_retryability :
    (∀ e : ErrVal, shouldFallback e = true ↔
      ((∃ s, e.code = some (JsVal.str s) ∧ s ∈ recognizedNetworkCodes) ∨
       (∃ n : Int, e.statusCode = some n ∧ 500 ≤ n ∧ n ≤ 504))) ∧
    shouldFallback ⟨none, none, some 404⟩ = false ∧
    shouldFallback ⟨none, none, some 401⟩ = false := by
  refine ⟨fun e => ?_, rfl, rfl⟩
  obtain ⟨m, c, sc⟩ := e
  cases c with
  | none =>
    cases sc with
    | none => simp [shouldFallback]
    | some s => simp [shouldFallback, and_assoc]
  | some v =>
    cases sc with
    | none => simp [shouldFallback, isNetworkErrorCode_iff]
    | some s => simp [shouldFallback, isNetworkErrorCode_iff, and_assoc]

/-- C8.  The connectivity probe always reports a null error, reports true
exactly when the callback delivers no error and a body whose trimmed text
is the literal yes, and in particular swallows every network error. -/
theorem claim8_connectivity :
    (∀ res : CbArgs,
      (checkConnectivity res).1 = none ∧
      ((checkConnectivity res).2 = true ↔
        ∃ b hd ie st, res = CbArgs.full none b hd ie st ∧
          jsTrim (bodyToString b) = "yes")) ∧
    (checkConnectivity
      (CbArgs.full none (BodyVal.raw " yes \n") ⟨none, none, none⟩ false 200)).2
        = true ∧
    (checkConnectivity
      (CbArgs.full none (BodyVal.raw "no") ⟨none, none, none⟩ false 200)).2
        = false ∧
    (∀ e : ErrVal, checkConnectivity (CbArgs.errOnly e) = (none, false)) := by
  refine ⟨fun res => ?_, by decide, by decide, fun e => rfl⟩
  cases res with
  | errOnly e => simp [checkConnectivity]
  | full err b hd ie st =>
    cases err with
    | some e => simp [checkConnectivity]
    | none => simp [checkConnectivity]

lemma runAgentSteps_from_some {α : Type} (defaults : α) (l : List (Option α))
    (a : AgentPair α) :
    runAgentSteps defaults l (some a) = (List.replicate l.length a, some a) := by
  induction l with
  | nil => rfl
  | cons o rest ih => simp [runAgentSteps, ensureAgent, ih, List.replicate]

/-- C10.  The shared agent pair is created once, from the agent options of
the first request (or the defaults), and every later request reuses that
same pair unchanged whatever options it supplies. -/
theorem claim10_agent_pair {α : Type} (defaults : α) (first : Option α)
    (rest : List (Option α)) :
    runAgentSteps defaults (first :: rest) none =
      (List.replicate (rest.length + 1)
        (mkAgentPair (resolveAgentOptions defaults first)),
       some (mkAgentPair (resolveAgentOptions defaults first))) := by
  simp [runAgentSteps, ensureAgent, runAgentSteps_from_some, List.replicate]

/-- C3 counterexample.  A 200 response with declared JSON content type and
body containing a JSON object is delivered with the raw, undecoded body:
the classifier performs no decoding below status 300, refuting the claim
that the success body is decoded per the declared content type. -/
theorem claim3_counterexample :
    handler msgpackUndecodable none
        ⟨200, ⟨some "application/json", none, none⟩⟩ "\x7b\"ok\":true\x7d" =
      Except.ok (CbArgs.full none (BodyVal.raw "\x7b\"ok\":true\x7d")
        ⟨some "application/json", none, none⟩ false 200) ∧
    jsonParse "\x7b\"ok\":true\x7d" =
      Except.ok (JsVal.obj [("ok", JsVal.bool true)]) ∧
    BodyVal.raw "\x7b\"ok\":true\x7d" ≠
      BodyVal.decoded (JsVal.obj [("ok", JsVal.bool true)]) :=
  ⟨rfl, rfl, fun h => nomatch h⟩

/-- C3 amended.  Every response with status below 300 is delivered as
success with the raw body passed through unchanged (no decoding), the
headers, false and the status code. -/
theorem claim3_amended (msgDecode : String → Except HandlerExn JsVal)
    (response : Response) (body : String)
    (hlt : response.statusCode < 300) :
    handler msgDecode none response body =
      Except.ok (CbArgs.full none (BodyVal.raw body) response.headers false
        response.statusCode) := by
  unfold handler
  rw [if_neg (by omega)]

theorem claim3_witness :
    (200 : Nat) < 300 ∧
    handler msgpackUndecodable none
        ⟨200, ⟨some "application/json", none, none⟩⟩ "\x7b\"ok\":true\x7d" =
      Except.ok (CbArgs.full none (BodyVal.raw "\x7b\"ok\":true\x7d")
        ⟨some "application/json", none, none⟩ false 200) :=
  ⟨by decide,
   claim3_amended msgpackUndecodable
     ⟨200, ⟨some "application/json", none, none⟩⟩ "\x7b\"ok\":true\x7d"
     (by decide)⟩

/-- C6 counterexample.  A 400 response with declared JSON content type and
a malformed body makes the classification step throw the parse error
instead of returning a structured ErrorInfo, refuting the claim that the
classifier never raises. -/
theorem claim6_counterexample :
    jsonParse "\x7b" = Except.error HandlerExn.parseFailure ∧
    handler msgpackUndecodable none
        ⟨400, ⟨some "application/json", none, none⟩⟩ "\x7b" =
      Except.error HandlerExn.parseFailure :=
  ⟨rfl, rfl⟩

lemma jsProp_decoded_ne_null (v : JsVal) (key : String) (hv : v ≠ JsVal.null) :
    jsProp (BodyVal.decoded v) key = Except.ok (propOf v key) := by
  cases v with
  | null => exact absurd rfl hv
  | bool b => rfl
  | num n => rfl
  | str s => rfl
  | arr xs => rfl
  | obj fs => rfl

/-- C6 amended.  For a response with status at least 300 and declared JSON
content type: a body that parses to a non-null JSON value yields a
structured ErrorInfo delivered as an error outcome without any exception;
a malformed body makes the classification step raise the parse error, and
a body parsing to JSON null makes the structured-error read raise a type
error — neither produces an ErrorInfo. -/
theorem claim6_amended (msgDecode : String → Except HandlerExn JsVal)
    (response : Response) (body : String)
    (hge : 300 ≤ response.statusCode)
    (hct : response.headers.contentType = some "application/json") :
    (∀ ex, jsonParse body = Except.error ex →
      handler msgDecode none response body = Except.error ex) ∧
    (∀ v, jsonParse body = Except.ok v → v ≠ JsVal.null →
      ∃ e, handler msgDecode none response body =
        Except.ok (CbArgs.full (some e) (BodyVal.decoded v) response.headers
          true response.statusCode)) ∧
    (jsonParse body = Except.ok JsVal.null →
      handler msgDecode none response body = Except.error HandlerExn.typeFailure) := by
  have hdec : decodeBody msgDecode response.headers.contentType body =
      Except.map BodyVal.decoded (jsonParse body) := by
    rw [hct]; rfl
  unfold handler
  rw [if_pos hge, hdec]
  refine ⟨fun ex hex => ?_, fun v hv hvnull => ?_, fun hnull => ?_⟩
  · rw [hex]; rfl
  · rw [hv]
    simp only [Except.map]
    rw [jsProp_decoded_ne_null v "error" hvnull]
    exact ⟨_, rfl⟩
  · rw [hnull]; rfl

theorem claim6_witness :
    ((300 : Nat) ≤ 400 ∧
      (⟨some "application/json", none, none⟩ : Headers).contentType =
        some "application/json") ∧
    handler msgpackUndecodable none
        ⟨400, ⟨some "application/json", none, none⟩⟩ "\x7b" =
      Except.error HandlerExn.parseFailure ∧
    (∃ e, handler msgpackUndecodable none
        ⟨404, ⟨some "application/json", none, none⟩⟩ "\x7b\"a\":1\x7d" =
      Except.ok (CbArgs.full (some e)
        (BodyVal.decoded (JsVal.obj [("a", JsVal.num 1)]))
        ⟨some "application/json", none, none⟩ true 404)) :=
  ⟨⟨by decide, rfl⟩,
   (claim6_amended msgpackUndecodable
      ⟨400, ⟨some "application/json", none, none⟩⟩ "\x7b"
      (by decide) rfl).1 HandlerExn.parseFailure rfl,
   (claim6_amended msgpackUndecodable
      ⟨404, ⟨some "application/json", none, none⟩⟩ "\x7b\"a\":1\x7d"
      (by decide) rfl).2.1 (JsVal.obj [("a", JsVal.num 1)]) rfl
      (fun h => nomatch h)⟩

/-- C7.  A stored record with validUntil at or before now is never used:
the dispatch behaves exactly as if no record were stored, i.e. as a cold
start through host resolution. -/
theorem claim7_expired_record (net : String → CbArgs) (now ttl : Nat)
    (hosts : List String) (record : FallbackRecord)
    (hexp : record.validUntil ≤ now) :
    httpDo net now ttl hosts (some record) = httpDo net now ttl hosts none ∧
    httpDo net now ttl hosts (some record) =
      some (coldDispatch net now ttl hosts) := by
  constructor
  · show httpDoFuel net now ttl hosts 2 (some record) = _
    unfold httpDoFuel
    rw [if_neg (by omega)]
    rfl
  · show httpDoFuel net now ttl hosts 2 (some record) = _
    unfold httpDoFuel
    rw [if_neg (by omega)]

theorem claim7_witness :
    (⟨"f", 50⟩ : FallbackRecord).validUntil ≤ 100 ∧
    httpDo (fun _ => CbArgs.full none (BodyVal.raw "ok") ⟨none, none, none⟩ false 200)
        100 7 ["a"] (some ⟨"f", 50⟩) =
      httpDo (fun _ => CbArgs.full none (BodyVal.raw "ok") ⟨none, none, none⟩ false 200)
        100 7 ["a"] none :=
  ⟨by decide,
   (claim7_expired_record
     (fun _ => CbArgs.full none (BodyVal.raw "ok") ⟨none, none, none⟩ false 200)
     100 7 ["a"] ⟨"f", 50⟩ (by decide)).1⟩

/-- C9.  When the stored record is live and the single attempt against the
stored host succeeds or fails non-retryably, the dispatch delivers that
outcome with the record left exactly as it was: neither host nor
validUntil is rewritten. -/
theorem claim9_record_unchanged (net : String → CbArgs) (now ttl : Nat)
    (hosts : List String) (record : FallbackRecord)
    (hvalid : now < record.validUntil)
    (houtcome : (net record.host).firstArg = none ∨
      ∃ e, (net record.host).firstArg = some e ∧ shouldFallback e = false) :
    httpDo net now ttl hosts (some record) =
      some ⟨[record.host], net record.host, some record⟩ := by
  have hnr : (net record.host).retryable = false := by
    unfold CbArgs.retryable
    rcases houtcome with h | ⟨e, he, hsf⟩
    · rw [h]
    · rw [he]; exact hsf
  show httpDoFuel net now ttl hosts 2 (some record) = _
  unfold httpDoFuel
  rw [if_pos hvalid]
  simp [hnr]

theorem claim9_witness :
    (5 : Nat) < 200 ∧
    ((fun _ => CbArgs.errOnly ⟨none, none, some 404⟩ : String → CbArgs) "f").firstArg =
      some ⟨none, none, some 404⟩ ∧
    httpDo (fun _ => CbArgs.errOnly ⟨none, none, some 404⟩) 5 7 ["a", "c"]
        (some ⟨"f", 200⟩) =
      some ⟨["f"], CbArgs.errOnly ⟨none, none, some 404⟩, some ⟨"f", 200⟩⟩ :=
  ⟨by decide, rfl,
   claim9_record_unchanged (fun _ => CbArgs.errOnly ⟨none, none, some 404⟩)
     5 7 ["a", "c"] ⟨"f", 200⟩ (by decide)
     (Or.inr ⟨⟨none, none, some 404⟩, rfl, rfl⟩)⟩

lemma tryAHost_cons_retry (net : String → CbArgs) (now ttl : Nat)
    (host : String) (remaining : List String) (pos : Bool)
    (hr : (net host).retryable = true) (hne : remaining ≠ []) :
    tryAHost net now ttl (host :: remaining) pos =
      ⟨host :: (tryAHost net now ttl remaining true).attempts,
       (tryAHost net now ttl remaining true).result,
       (tryAHost net now ttl remaining true).fallback⟩ := by
  match remaining, hne with
  | r :: rs, _ => simp [tryAHost, hr]

lemma tryAHost_cons_stop (net : String → CbArgs) (now ttl : Nat)
    (host : String) (remaining : List String) (pos : Bool)
    (hstop : (net host).retryable = false ∨ remaining = []) :
    tryAHost net now ttl (host :: remaining) pos =
      ⟨[host], net host, if pos then some ⟨host, now + ttl⟩ else none⟩ := by
  rcases hstop with h | h
  · simp [tryAHost, h]
  · subst h; simp [tryAHost]

lemma tryAHost_attempts_le (net : String → CbArgs) (now ttl : Nat) :
    ∀ (hosts : List String) (pos : Bool),
      (tryAHost net now ttl hosts pos).attempts.length ≤ hosts.length := by
  intro hosts
  induction hosts with
  | nil => intro pos; simp [tryAHost]
  | cons host remaining ih =>
    intro pos
    by_cases hr : (net host).retryable = true
    · by_cases hrem : remaining = []
      · subst hrem
        rw [tryAHost_cons_stop net now ttl host [] pos (Or.inr rfl)]
      · rw [tryAHost_cons_retry net now ttl host remaining pos hr hrem]
        simpa using Nat.succ_le_succ (ih true)
    · rw [tryAHost_cons_stop net now ttl host remaining pos
        (Or.inl (by simpa using hr))]
      simp [Nat.succ_le_succ (Nat.zero_le _)]

/-- Structural characterization of `tryAHost`: the attempts are a nonempty
prefix of the host list, the delivered result is the outcome of the last
attempted host, every attempt before the last failed retryably, the
fallback record is written exactly when persistence was requested or at
least two hosts were attempted, and a retryable final outcome means the
list was exhausted. -/
lemma tryAHost_spec (net : String → CbArgs) (now ttl : Nat) :
    ∀ (hosts : List String) (pos : Bool), hosts ≠ [] →
      ∃ hlast,
        (tryAHost net now ttl hosts pos).attempts ≠ [] ∧
        (tryAHost net now ttl hosts pos).attempts =
          hosts.take (tryAHost net now ttl hosts pos).attempts.length ∧
        (tryAHost net now ttl hosts pos).attempts.getLast? = some hlast ∧
        (tryAHost net now ttl hosts pos).result = net hlast ∧
        (tryAHost net now ttl hosts pos).fallback =
          (if pos = true ∨ 2 ≤ (tryAHost net now ttl hosts pos).attempts.length
           then some ⟨hlast, now + ttl⟩ else none) ∧
        (∀ a ∈ (tryAHost net now ttl hosts pos).attempts.dropLast,
          (net a).retryable = true) ∧
        ((net hlast).retryable = true →
          (tryAHost net now ttl hosts pos).attempts = hosts) := by
  intro hosts
  induction hosts with
  | nil => intro pos h; exact absurd rfl h
  | cons host remaining ih =>
    intro pos _
    by_cases hstop : (net host).retryable = false ∨ remaining = []
    · rw [tryAHost_cons_stop net now ttl host remaining pos hstop]
      refine ⟨host, by simp, by simp, by simp, rfl, ?_, by simp, ?_⟩
      · show (if pos then some (⟨host, now + ttl⟩ : FallbackRecord) else none) = _
        cases pos <;> simp
      · intro hret
        rcases hstop with h | h
        · rw [hret] at h; cases h
        · subst h; rfl
    · push_neg at hstop
      obtain ⟨hr, hrem⟩ := hstop
      have hr' : (net host).retryable = true := by
        cases h : (net host).retryable
        · exact absurd h hr
        · rfl
      rw [tryAHost_cons_retry net now ttl host remaining pos hr' hrem]
      obtain ⟨hlast, hne, htake, hlast?, hres, hfb, hdrop, hexh⟩ := ih true hrem
      obtain ⟨a, as, hcons⟩ := List.exists_cons_of_ne_nil hne
      rw [hcons] at htake hlast? hfb hdrop
      refine ⟨hlast, by simp, ?_, ?_, hres, ?_, ?_, ?_⟩
      · show host :: (tryAHost net now ttl remaining true).attempts =
          (host :: remaining).take
            (host :: (tryAHost net now ttl remaining true).attempts).length
        rw [List.length_cons, List.take_succ_cons]
        rw [hcons, hcons] at *
        exact congrArg _ htake
      · show (host :: (tryAHost net now ttl remaining true).attempts).getLast? =
          some hlast
        rw [hcons, List.getLast?_cons_cons]
        exact hlast?
      · show (tryAHost net now ttl remaining true).fallback = _
        rw [hfb, if_pos (Or.inl rfl), if_pos]
        right
        rw [hcons, List.length_cons, List.length_cons]
        omega
      · show ∀ b ∈ (host :: (tryAHost net now ttl remaining true).attempts).dropLast,
          (net b).retryable = true
        rw [hcons, List.dropLast_cons₂]
        intro b hb
        rcases List.mem_cons.mp hb with h | h
        · subst h; exact hr'
        · exact hdrop b h
      · intro hret
        show host :: (tryAHost net now ttl remaining true).attempts = host :: remaining
        exact congrArg _ (hexh hret)

lemma coldDispatch_multi (net : String → CbArgs) (now ttl : Nat)
    (hosts : List String) (h2 : 2 ≤ hosts.length) :
    coldDispatch net now ttl hosts = tryAHost net now ttl hosts false := by
  cases hosts with
  | nil => exact absurd h2 (by simp)
  | cons a t =>
    cases t with
    | nil => exact absurd h2 (by simp)
    | cons b t' => rfl

lemma coldDispatch_attempts_le (net : String → CbArgs) (now ttl : Nat)
    (hosts : List String) :
    (coldDispatch net now ttl hosts).attempts.length ≤ hosts.length := by
  cases hosts with
  | nil => simp [coldDispatch, tryAHost]
  | cons a t =>
    cases t with
    | nil => simp [coldDispatch]
    | cons b t' => exact tryAHost_attempts_le net now ttl (a :: b :: t') false

/-- The retryable-prefix-then-success shape: when every host of `pre`
fails retryably and `hk` succeeds, exactly the hosts of `pre` then `hk`
are attempted, the success is delivered, and a record for `hk` valid
until now + ttl is stored exactly when `pre` is nonempty. -/
lemma tryAHost_success (net : String → CbArgs) (now ttl : Nat)
    (pre : List String) (hk : String) (post : List String) :
    ∀ pos : Bool, (∀ a ∈ pre, (net a).retryable = true) →
      (net hk).firstArg = none →
      tryAHost net now ttl (pre ++ hk :: post) pos =
        ⟨pre ++ [hk], net hk,
         if pos || !pre.isEmpty then some ⟨hk, now + ttl⟩ else none⟩ := by
  induction pre with
  | nil =>
    intro pos _ hok
    have hr : (net hk).retryable = false := by
      unfold CbArgs.retryable
      rw [hok]
    simpa using tryAHost_cons_stop net now ttl hk post pos (Or.inl hr)
  | cons a pre' ih =>
    intro pos hpre hok
    have ha : (net a).retryable = true := hpre a (List.mem_cons_self a _)
    have hrem : pre' ++ hk :: post ≠ [] := by simp
    rw [List.cons_append,
        tryAHost_cons_retry net now ttl a (pre' ++ hk :: post) pos ha hrem,
        ih true (fun x hx => hpre x (List.mem_cons_of_mem a hx)) hok]
    simp

/-- Concrete network for the C1 counterexample: host a fails with a
retryable timeout, every other host fails with a non-retryable 404. -/
def netClaim1 : String → CbArgs := fun h =>
  if h = "a" then CbArgs.errOnly ⟨none, some (JsVal.str "ETIMEDOUT"), none⟩
  else CbArgs.errOnly ⟨none, none, some 404⟩

/-- Concrete network for dispatch witnesses: host a fails with a retryable
timeout, every other host succeeds with a 200. -/
def netSucceedB : String → CbArgs := fun h =>
  if h = "a" then CbArgs.errOnly ⟨none, some (JsVal.str "ETIMEDOUT"), none⟩
  else CbArgs.full none (BodyVal.raw "ok") ⟨none, none, none⟩ false 200

/-- C1 counterexample.  Hosts a and b: a fails retryably, b fails with a
non-retryable 404, so the dispatch ends in a failure delivered to the
caller — yet a FallbackRecord for b is stored, refuting the claim that no
record is ever stored when the sequence ends in a failure. -/
theorem claim1_counterexample :
    httpDo netClaim1 100 7 ["a", "b"] none =
      some ⟨["a", "b"], CbArgs.errOnly ⟨none, none, some 404⟩,
        some ⟨"b", 107⟩⟩ ∧
    shouldFallback ⟨none, none, some 404⟩ = false :=
  ⟨rfl, rfl⟩

/-- C1 amended.  In a multi-host dispatch the record is keyed to the last
attempted host with validity now + ttl and is stored exactly when at least
two hosts were attempted — whatever the final outcome; in particular for a
retryable-prefix-then-success sequence, the successful host is persisted
when and only when it was not the first host attempted. -/
theorem claim1_amended (net : String → CbArgs) (now ttl : Nat)
    (hosts : List String) (h2 : 2 ≤ hosts.length) :
    ((coldDispatch net now ttl hosts).attempts.length = 1 →
      (coldDispatch net now ttl hosts).fallback = none) ∧
    (2 ≤ (coldDispatch net now ttl hosts).attempts.length →
      ∃ hlast, (coldDispatch net now ttl hosts).attempts.getLast? = some hlast ∧
        (coldDispatch net now ttl hosts).fallback = some ⟨hlast, now + ttl⟩) ∧
    (∀ pre hk post, hosts = pre ++ hk :: post →
      (∀ a ∈ pre, (net a).retryable = true) →
      (net hk).firstArg = none →
      coldDispatch net now ttl hosts =
        ⟨pre ++ [hk], net hk,
         if pre.isEmpty then none else some ⟨hk, now + ttl⟩⟩) := by
  rw [coldDispatch_multi net now ttl hosts h2]
  have hne : hosts ≠ [] := by
    cases hosts
    · exact absurd h2 (by simp)
    · simp
  obtain ⟨hlast, _, _, hlast?, _, hfb, _, _⟩ := tryAHost_spec net now ttl hosts false hne
  refine ⟨?_, ?_, ?_⟩
  · intro h1
    rw [hfb, if_neg]
    rw [h1]
    simp
  · intro hge2
    exact ⟨hlast, hlast?, by rw [hfb, if_pos (Or.inr hge2)]⟩
  · intro pre hk post heq hpre hok
    subst heq
    rw [tryAHost_success net now ttl pre hk post false hpre hok]
    cases h : pre.isEmpty <;> simp [h]

theorem claim1_witness :
    (2 : Nat) ≤ (["a", "b"] : List String).length ∧
    coldDispatch netSucceedB 100 7 ["a", "b"] =
      ⟨["a", "b"], netSucceedB "b", some ⟨"b", 107⟩⟩ := by
  refine ⟨by decide, ?_⟩
  have h := (claim1_amended netSucceedB 100 7 ["a", "b"] (by decide)).2.2
    ["a"] "b" [] rfl (by intro a ha; simp at ha; subst ha; rfl) rfl
  simpa using h

/-- C5.  In every attempt sequence the attempts are a nonempty prefix of
the host list, every host before the last failed retryably (so a retryable
error on a non-final host is never delivered), the caller receives exactly
the outcome of the last attempted host, and an error is delivered only
when it is non-retryable or the host list is exhausted. -/
theorem claim5_error_propagation (net : String → CbArgs) (now ttl : Nat)
    (hosts : List String) (hne : hosts ≠ []) :
    ∃ hlast,
      (coldDispatch net now ttl hosts).attempts ≠ [] ∧
      (coldDispatch net now ttl hosts).attempts =
        hosts.take (coldDispatch net now ttl hosts).attempts.length ∧
      (coldDispatch net now ttl hosts).attempts.getLast? = some hlast ∧
      (coldDispatch net now ttl hosts).result = net hlast ∧
      (∀ a ∈ (coldDispatch net now ttl hosts).attempts.dropLast,
        (net a).retryable = true) ∧
      (∀ e, (coldDispatch net now ttl hosts).result.firstArg = some e →
        shouldFallback e = false ∨
          (coldDispatch net now ttl hosts).attempts = hosts) := by
  match hosts, hne with
  | [h], _ =>
    exact ⟨h, by simp [coldDispatch], by simp [coldDispatch],
      by simp [coldDispatch], rfl, by simp [coldDispatch],
      fun e he => Or.inr rfl⟩
  | h1 :: h2 :: t, _ =>
    have hmulti : coldDispatch net now ttl (h1 :: h2 :: t) =
        tryAHost net now ttl (h1 :: h2 :: t) false := rfl
    obtain ⟨hlast, hne', htake, hlast?, hres, _, hdrop, hexh⟩ :=
      tryAHost_spec net now ttl (h1 :: h2 :: t) false (by simp)
    rw [hmulti]
    refine ⟨hlast, hne', htake, hlast?, hres, hdrop, ?_⟩
    intro e he
    by_cases hsf : shouldFallback e = true
    · refine Or.inr (hexh ?_)
      unfold CbArgs.retryable
      rw [hres] at he
      rw [he]
      exact hsf
    · exact Or.inl (by simpa using hsf)

theorem claim5_witness :
    (["a", "b"] : List String) ≠ [] ∧
    (coldDispatch netClaim1 100 7 ["a", "b"]).result = netClaim1 "b" := by
  refine ⟨by simp, ?_⟩
  obtain ⟨hlast, _, _, hlast?, hres, _, _⟩ :=
    claim5_error_propagation netClaim1 100 7 ["a", "b"] (by simp)
  have hatt : (coldDispatch netClaim1 100 7 ["a", "b"]).attempts = ["a", "b"] := rfl
  rw [hatt] at hlast?
  have hb : hlast = "b" := by
    have := hlast?
    simp at this
    exact this.symm
  rw [hres, hb]

/-- C4.  With a live stored record the stored host is attempted exactly
once first; a retryable failure there clears the record and the dispatch
re-enters once, falling through to host resolution (the cold dispatch),
and every dispatch finishes within fuel 2 with at most 1 + number of
resolved hosts attempts. -/
theorem claim4_stored_fallback (net : String → CbArgs) (now ttl : Nat)
    (hosts : List String) (record : FallbackRecord)
    (hvalid : now < record.validUntil) :
    (httpDo net now ttl hosts (some record) =
      (if (net record.host).retryable then
        some ⟨record.host :: (coldDispatch net now ttl hosts).attempts,
          (coldDispatch net now ttl hosts).result,
          (coldDispatch net now ttl hosts).fallback⟩
      else some ⟨[record.host], net record.host, some record⟩)) ∧
    (∀ d, httpDo net now ttl hosts (some record) = some d →
      d.attempts.head? = some record.host ∧
      d.attempts.length ≤ 1 + hosts.length) ∧
    (∀ fb, httpDoFuel net now ttl hosts 2 fb ≠ none) := by
  have key : httpDo net now ttl hosts (some record) =
      (if (net record.host).retryable then
        some ⟨record.host :: (coldDispatch net now ttl hosts).attempts,
          (coldDispatch net now ttl hosts).result,
          (coldDispatch net now ttl hosts).fallback⟩
      else some ⟨[record.host], net record.host, some record⟩) := by
    show httpDoFuel net now ttl hosts 2 (some record) = _
    unfold httpDoFuel
    rw [if_pos hvalid]
    cases hr : (net record.host).retryable
    · simp [hr]
    · simp [hr, httpDoFuel]
  refine ⟨key, ?_, ?_⟩
  · intro d hd
    rw [key] at hd
    cases hr : (net record.host).retryable
    · rw [hr] at hd
      simp at hd
      subst hd
      exact ⟨rfl, by simp⟩
    · rw [hr] at hd
      simp at hd
      subst hd
      refine ⟨rfl, ?_⟩
      have := coldDispatch_attempts_le net now ttl hosts
      simp only [List.length_cons]
      omega
  · intro fb
    cases fb with
    | none => simp [httpDoFuel]
    | some r =>
      by_cases h : now < r.validUntil
      · by_cases hr : (net r.host).retryable = true
        · simp [httpDoFuel, h, hr]
        · simp [httpDoFuel, h, hr]
      · simp [httpDoFuel, h]

theorem claim4_witness :
    (5 : Nat) < 200 ∧
    httpDo netSucceedB 5 7 ["a", "b"] (some ⟨"a", 200⟩) =
      some ⟨["a", "a", "b"],
        CbArgs.full none (BodyVal.raw "ok") ⟨none, none, none⟩ false 200,
        some ⟨"b", 12⟩⟩ := by
  refine ⟨by decide, ?_⟩
  rw [(claim4_stored_fallback netSucceedB 5 7 ["a", "b"] ⟨"a", 200⟩ (by decide)).1]
  rfl

end AblyHttp
